import Mathlib

/-!
Shallow embedding of `olmo/data/memmap_dataset.py` (class `MemMapDataset`),
together with the byte-source helpers it calls, and proofs of the claimed
properties of the offset index, indexed access, instance assembly and
dataset concatenation.
-/

set_option autoImplicit false

namespace OLMoData

/-- Paths are abstract identifiers. -/
abbrev Path := Nat

/-- A file system assigns each path its byte content. -/
abbrev FS := Path → List Nat

/-- Metadata records, abstracted to an opaque immutable value. -/
abbrev Meta := List Nat

/-- The Python exception classes raised by the code under study. -/
inductive PyError where
  | valueError (msg : String)
  | indexError (msg : String)
  | rangeError
  | assertionError
  deriving DecidableEq, Repr

deriving instance DecidableEq for Except

/-- Modelled from the spec: `file_size` (`olmo/util.py`, not under `src/`) is the
ByteRangeSource operation "return byte length of object at path". -/
def file_size (fs : FS) (path : Path) : Nat := (fs path).length

/-- Modelled from the spec: `get_bytes_range` (`olmo/util.py`, not under `src/`) is
the ByteRangeSource operation "return bytes in `[start, start+len)` of object",
returning exactly the requested bytes and failing with a RangeError when
`start+length` exceeds the object size. -/
def get_bytes_range (fs : FS) (path : Path) (bytes_start num_bytes : Nat) :
    Except PyError (List Nat) :=
  if bytes_start + num_bytes ≤ (fs path).length then
    .ok (((fs path).drop bytes_start).take num_bytes)
  else
    .error .rangeError

/-- The instance dict returned by `MemMapDataset.__getitem__` (lines 162-198).
The attention mask is the numeric 0/1 tensor built by `ones_like` and
`masked_fill_` (lines 194-195). -/
structure Instance where
  input_ids : List Nat
  label_mask : Option (List Bool)
  metadata : Option Meta
  attention_mask : Option (List Nat)
  deriving DecidableEq, Repr

/-- The state stored by `MemMapDataset.__init__` (lines 70-79). `itemsize` is the
byte width of `self.dtype`; `metadata` is the resolved per-path list. -/
structure MemMapDataset where
  memmap_paths : List Path
  metadata : List Meta
  label_mask_paths : Option (List Path)
  chunk_size : Nat
  itemsize : Nat
  include_instance_metadata : Bool
  generate_attention_mask : Bool
  pad_token_id : Option Nat
  deriving DecidableEq, Repr

/-- The `metadata` constructor argument, `Optional[Union[List[Dict], Dict]]`. -/
inductive MetaArg where
  | noneArg
  | single (m : Meta)
  | listArg (l : List Meta)
  deriving DecidableEq, Repr

/-- Python truthiness of `pad_token_id` at line 58: `not pad_token_id` holds for
`None` and also for `0`. -/
def padFalsy : Option Nat → Bool
  | none => true
  | some v => v == 0

/-- Python truthiness of `label_mask_paths` at line 61: `None` and `[]` are falsy. -/
def labelTruthy : Option (List Path) → Bool
  | some (_ :: _) => true
  | _ => false

/-- Length of the optional label-mask path list. -/
def labelLen : Option (List Path) → Nat
  | some ms => ms.length
  | none => 0

/-- `MemMapDataset.__init__` (lines 44-79): the argument checks in source order,
then the stored state, with the single/absent metadata record broadcast to one
record per path (line 68). -/
def MemMapDataset.init (paths : List Path) (chunk_size itemsize : Nat) (metadata : MetaArg)
    (include_instance_metadata generate_attention_mask : Bool) (pad_token_id : Option Nat)
    (label_mask_paths : Option (List Path)) : Except PyError MemMapDataset :=
  if paths = [] then
    .error (.valueError "At least one path is required")
  else if generate_attention_mask && padFalsy pad_token_id then
    .error (.valueError "pad_token_id is required for generate_attention_mask")
  else if labelTruthy label_mask_paths && (labelLen label_mask_paths != paths.length) then
    .error (.valueError "There must be the same number of label_mask_paths as there are paths")
  else
    match metadata with
    | .listArg l =>
        if l.length ≠ paths.length then
          .error (.valueError "metadata should have the same length as the number of file paths")
        else
          .ok ⟨paths, l, label_mask_paths, chunk_size, itemsize,
               include_instance_metadata, generate_attention_mask, pad_token_id⟩
    | .single m =>
        .ok ⟨paths, List.replicate paths.length m, label_mask_paths, chunk_size, itemsize,
             include_instance_metadata, generate_attention_mask, pad_token_id⟩
    | .noneArg =>
        .ok ⟨paths, List.replicate paths.length [], label_mask_paths, chunk_size, itemsize,
             include_instance_metadata, generate_attention_mask, pad_token_id⟩

/-- `MemMapDataset._get_file_length` (lines 152-155); `itemsize` is the byte width
of the `dtype` argument (callers pass 1 for `np.bool_`, `self.dtype` width
otherwise). -/
def MemMapDataset.get_file_length (ds : MemMapDataset) (fs : FS) (path : Path)
    (itemsize : Nat) : Path × Nat :=
  (path, file_size fs path / (itemsize * ds.chunk_size))

/-- Message of the `ValueError` raised at line 134: it names both paths. -/
def mkMaskMismatchMsg (mask_path path : Path) : String :=
  "masking file " ++ toString mask_path ++ " should be the same size as " ++ toString path

/-- The dict built at lines 107 and 117, keyed by token path with mask-path values:
a later insertion for the same key wins, as in Python. -/
def lastAssoc (prs : List (Path × Path)) : Path → Option Path :=
  prs.foldl (fun f pr => fun q => if q = pr.1 then some pr.2 else f q) (fun _ => none)

/-- The index-building loop of `MemMapDataset.offsets` (lines 128-137), returning
the list accumulated so far together with the error, if any, that aborted the
loop: the partial list mirrors the appends already performed on
`self._mmap_offsets` before the exception. -/
def offsetsLoopSt (tc : Path → Nat) (mc : Option ((Path → Path) × (Path → Nat))) :
    List Path → Nat → List (Nat × Nat) → List (Nat × Nat) × Option PyError
  | [], _, acc => (acc, none)
  | p :: ps, start_offset, acc =>
      let length := tc p
      match mc with
      | some (p2m, mcLen) =>
          if length ≠ mcLen (p2m p) then
            (acc, some (.valueError (mkMaskMismatchMsg (p2m p) p)))
          else
            offsetsLoopSt tc (some (p2m, mcLen)) ps (start_offset + length)
              (acc ++ [(start_offset, start_offset + length)])
      | none =>
          offsetsLoopSt tc none ps (start_offset + length)
            (acc ++ [(start_offset, start_offset + length)])

/-- One build of `MemMapDataset.offsets` (lines 101-137), starting from the freshly
assigned `self._mmap_offsets = []`: the final contents of `self._mmap_offsets`
plus the exception, if any, that escaped the build. Probing sizes concurrently
(lines 110-126) is observably a pure function of the file system, so only the
aggregation order matters; `self._label_mask_paths[i]` (line 116) raises
`IndexError` when the mask list is shorter than the path list, and the mask
parity check at lines 131-134 runs exactly when mask lengths were collected. -/
def MemMapDataset.buildOffsets (ds : MemMapDataset) (fs : FS) :
    List (Nat × Nat) × Option PyError :=
  let tc : Path → Nat := fun p => (ds.get_file_length fs p ds.itemsize).2
  match ds.label_mask_paths with
  | none => offsetsLoopSt tc none ds.memmap_paths 0 []
  | some ms =>
      if ds.memmap_paths.length ≤ ms.length then
        let p2m : Path → Path := fun p => (lastAssoc (ds.memmap_paths.zip ms) p).getD 0
        let mcLen : Path → Nat := fun p => (ds.get_file_length fs p 1).2
        offsetsLoopSt tc (some (p2m, mcLen)) ds.memmap_paths 0 []
      else ([], some (.indexError "list index out of range"))

/-- The memoised `_mmap_offsets` attribute: `none` until the first build. -/
abbrev DsState := Option (List (Nat × Nat))

/-- `MemMapDataset.offsets` (lines 90-138) as a state transformer over
`_mmap_offsets`: a cached list is returned as is, and a failing build still
leaves the partially filled list in the attribute. -/
def MemMapDataset.offsetsSt (ds : MemMapDataset) (fs : FS) (st : DsState) :
    Except PyError (List (Nat × Nat)) × DsState :=
  match st with
  | some l => (.ok l, some l)
  | none =>
      match ds.buildOffsets fs with
      | (l, none) => (.ok l, some l)
      | (l, some e) => (.error e, some l)

/-- `MemMapDataset.offsets` from a fresh dataset (`_mmap_offsets is None`). -/
def MemMapDataset.offsetsE (ds : MemMapDataset) (fs : FS) :
    Except PyError (List (Nat × Nat)) :=
  (ds.offsetsSt fs none).1

/-- `lst[-1][1]` on the offset list (line 159): Python raises `IndexError` on an
empty list. -/
def listLastE (l : List (Nat × Nat)) : Except PyError Nat :=
  match l.getLast? with
  | some pr => .ok pr.2
  | none => .error (.indexError "list index out of range")

/-- `MemMapDataset.__len__` (lines 157-160) from a fresh dataset. -/
def MemMapDataset.lenE (ds : MemMapDataset) (fs : FS) : Except PyError Nat :=
  match ds.offsetsE fs with
  | .ok l => listLastE l
  | .error e => .error e

/-- Little-endian value of a byte list. -/
def leVal : List Nat → Nat
  | [] => 0
  | b :: bs => b + 256 * leVal bs

/-- Helper for `decodeLE`, consuming `itemsize` bytes per element. -/
def decodeLEAux (itemsize : Nat) : Nat → List Nat → List Nat
  | 0, _ => []
  | k + 1, bytes => leVal (bytes.take itemsize) :: decodeLEAux itemsize k (bytes.drop itemsize)

/-- `np.frombuffer` for a fixed-width little-endian unsigned integer dtype (the
binary format fixed by the spec); the element count is the floor of the byte
count by the element width. -/
def decodeLE (itemsize : Nat) (bytes : List Nat) : List Nat :=
  decodeLEAux itemsize (bytes.length / itemsize) bytes

/-- `MemMapDataset._read_chunk_from_memmap` (lines 140-150), numeric-dtype branch. -/
def read_chunk_tokens (fs : FS) (itemsize chunk_size : Nat) (path : Path) (index : Nat) :
    Except PyError (List Nat) :=
  match get_bytes_range fs path (index * itemsize * chunk_size) (itemsize * chunk_size) with
  | .ok buffer => .ok (decodeLE itemsize buffer)
  | .error e => .error e

/-- `MemMapDataset._read_chunk_from_memmap` (lines 140-150), `np.bool_` branch
(itemsize 1, each byte decoded as a boolean). -/
def read_chunk_bool (fs : FS) (chunk_size : Nat) (path : Path) (index : Nat) :
    Except PyError (List Bool) :=
  match get_bytes_range fs path (index * 1 * chunk_size) (1 * chunk_size) with
  | .ok buffer => .ok (buffer.map (fun b => b != 0))
  | .error e => .error e

/-- Message of the `IndexError` raised at line 176: it names the attempted index
and the dataset length. -/
def mkOOBMsg (index : Int) (size : Nat) : String :=
  toString index ++ " is out of bounds for dataset of size " ++ toString size

/-- The scan at lines 170-173: it iterates over all ranges without breaking, so
the last matching range wins. `i` is the enumeration counter and `acc` the
current `(memmap_index, memmap_local_index)` pair. -/
def findLoop (pos : Int) : List (Nat × Nat) → Nat → Option (Nat × Nat) → Option (Nat × Nat)
  | [], _, acc => acc
  | (offset_start, offset_end) :: rest, i, acc =>
      findLoop pos rest (i + 1)
        (if (offset_start : Int) ≤ pos ∧ pos < (offset_end : Int) then
          some (i, (pos - (offset_start : Int)).toNat)
        else acc)

/-- Lines 162-176 of `__getitem__`: negative-index resolution (which evaluates
`len(self)` only for a negative index), the range scan and the `IndexError`,
over the already built offset list. -/
def posIndexE (offs : List (Nat × Nat)) (index : Int) : Except PyError Int :=
  if 0 ≤ index then .ok index
  else
    match listLastE offs with
    | .ok n => .ok ((n : Int) + index)
    | .error e => .error e

/-- Lines 162-176 of `__getitem__`, continued: the range scan over the already
built offset list and the `IndexError` of line 176. -/
def resolveWith (offs : List (Nat × Nat)) (index : Int) : Except PyError (Nat × Nat) :=
  match posIndexE offs index with
  | .error e => .error e
  | .ok pos =>
      match findLoop pos offs 0 none with
      | some r => .ok r
      | none =>
          match listLastE offs with
          | .ok n => .error (.indexError (mkOOBMsg index n))
          | .error e => .error e

/-- Lines 182-186: the optional label-mask read. -/
def readLabelMask (fs : FS) (ds : MemMapDataset) (mi li : Nat) :
    Except PyError (Option (List Bool)) :=
  match ds.label_mask_paths with
  | some ms =>
      match read_chunk_bool fs ds.chunk_size (ms.getD mi 0) li with
      | .ok lm => .ok (some lm)
      | .error e => .error e
  | none => .ok none

/-- Lines 178-198: read the chunk and assemble the instance dict from the resolved
`(memmap_index, memmap_local_index)`. Metadata is an opaque immutable value here,
so `deepcopy(metadata)` (line 190) returns the value itself; the aliasing content
of the deep copy is modelled separately by the heap embedding below. The
attention mask (lines 192-196) is `ones_like(input_ids)` with positions equal to
the pad id filled with 0, and line 193 is the `assert` on `pad_token_id`. -/
def assembleAt (fs : FS) (ds : MemMapDataset) (mi li : Nat) : Except PyError Instance :=
  match read_chunk_tokens fs ds.itemsize ds.chunk_size (ds.memmap_paths.getD mi 0) li with
  | .error e => .error e
  | .ok input_ids =>
      match readLabelMask fs ds mi li with
      | .error e => .error e
      | .ok lmv =>
          if ds.generate_attention_mask then
            match ds.pad_token_id with
            | some pid =>
                .ok ⟨input_ids, lmv,
                     if ds.include_instance_metadata then some (ds.metadata.getD mi [])
                     else none,
                     some (input_ids.map (fun t => if t = pid then 0 else 1))⟩
            | none => .error .assertionError
          else
            .ok ⟨input_ids, lmv,
                 if ds.include_instance_metadata then some (ds.metadata.getD mi []) else none,
                 none⟩

/-- `__getitem__` over an already built offset list. -/
def getItemWith (fs : FS) (ds : MemMapDataset) (offs : List (Nat × Nat)) (index : Int) :
    Except PyError Instance :=
  match resolveWith offs index with
  | .ok r => assembleAt fs ds r.1 r.2
  | .error e => .error e

/-- `MemMapDataset.__getitem__` (lines 162-198) as a state transformer over
`_mmap_offsets` (the accesses to `self.offsets` and `len(self)` trigger the
build). -/
def MemMapDataset.getItemSt (ds : MemMapDataset) (fs : FS) (st : DsState) (index : Int) :
    Except PyError Instance × DsState :=
  match ds.offsetsSt fs st with
  | (.ok offs, st2) => (getItemWith fs ds offs index, st2)
  | (.error e, st2) => (.error e, st2)

/-- `MemMapDataset.__getitem__` from a fresh dataset. -/
def MemMapDataset.getItem (ds : MemMapDataset) (fs : FS) (index : Int) :
    Except PyError Instance :=
  (ds.getItemSt fs none index).1

/-- `MemMapDataset.__add__` (lines 200-211): the `isinstance` check is vacuous in
the typed embedding, and the combined dataset is built through `__init__` with
the default values of every other constructor argument. -/
def MemMapDataset.add (a other : MemMapDataset) : Except PyError MemMapDataset :=
  MemMapDataset.init (a.memmap_paths ++ other.memmap_paths) a.chunk_size a.itemsize
    (.listArg (a.metadata ++ other.metadata)) true false none none

/-- A heap of mutable metadata records, modelling the aliasing behaviour of
`deepcopy` at line 190. Addresses at or above `next` are unallocated. -/
structure Heap where
  data : Nat → Meta
  next : Nat

/-- In-place mutation of the record at address `a`. -/
def Heap.write (h : Heap) (a : Nat) (v : Meta) : Heap :=
  ⟨fun x => if x = a then v else h.data x, h.next⟩

/-- Allocation of a fresh record holding `v`. -/
def Heap.alloc (h : Heap) (v : Meta) : Nat × Heap :=
  (h.next, ⟨fun x => if x = h.next then v else h.data x, h.next + 1⟩)

/-- `copy.deepcopy` of the record at `a`: a fresh record with equal contents. -/
def heapDeepcopy (h : Heap) (a : Nat) : Nat × Heap := h.alloc (h.data a)

/-- Lines 162-176 and 188-190 with metadata as heap references: resolve the index
and return `deepcopy(self._metadata[memmap_index])`, `addrs` being the heap
addresses of the dataset's stored metadata records. -/
def MemMapDataset.getItemMetaH (ds : MemMapDataset) (fs : FS) (addrs : List Nat)
    (h : Heap) (index : Int) : Except PyError (Nat × Heap) :=
  match ds.offsetsE fs with
  | .error e => .error e
  | .ok offs =>
      match resolveWith offs index with
      | .ok r => .ok (heapDeepcopy h (addrs.getD r.1 0))
      | .error e => .error e

/-- A sequence of in-place mutations of the record at one address. -/
def writeSeq (h : Heap) (a : Nat) (vs : List Meta) : Heap :=
  vs.foldl (fun hh v => hh.write a v) h

/-- Whether an `Except` value is a success. -/
def isOkE {α : Type} : Except PyError α → Bool
  | .ok _ => true
  | .error _ => false

end OLMoData


namespace OLMoData

/-! Characterisation layer: contiguous ranges and reference index resolution. -/

/-- Contiguous half-open ranges starting at `s`, one per size in `cs`. -/
def rangesFrom (s : Nat) : List Nat → List (Nat × Nat)
  | [] => []
  | c :: cs => (s, s + c) :: rangesFrom (s + c) cs

/-- Reference resolution of a global index against a list of per-file sizes. -/
def locate : List Nat → Nat → Option (Nat × Nat)
  | [], _ => none
  | c :: cs, x =>
      if x < c then some (0, x)
      else (locate cs (x - c)).map (fun pr => (pr.1 + 1, pr.2))

/-- The per-file token instance counts probed during the index build. -/
def tokenCounts (ds : MemMapDataset) (fs : FS) : List Nat :=
  ds.memmap_paths.map (fun p => (ds.get_file_length fs p ds.itemsize).2)

/-- The metadata argument passes the length check of lines 64-66. -/
def metaLenOk : MetaArg → List Path → Bool
  | .listArg l, ps => l.length == ps.length
  | _, _ => true

/-- Fixture: a file system with token files of 6, 0 and 10 bytes at paths 0-2. -/
def fsW3 : FS := fun p =>
  if p = 0 then List.replicate 6 1 else if p = 2 then List.replicate 10 1 else []

/-- Fixture: a dataset over those three files, chunk size 2, 1-byte elements, so
the per-file instance counts are (3, 0, 5). -/
def dsW3 : MemMapDataset := ⟨[0, 1, 2], [[], [], []], none, 2, 1, true, false, none⟩

/-- Fixture: token file of 2 bytes and mask file of 1 byte at paths 0/10 (counts
agree at chunk size 1 with a 2-byte dtype), then a token file of 20 bytes at
path 1 whose mask file at path 11 has 9 bytes (counts 10 vs 9 disagree). -/
def fsW5 : FS := fun p =>
  if p = 0 then [1, 1] else if p = 1 then List.replicate 20 1
  else if p = 10 then [1] else if p = 11 then List.replicate 9 1 else []

/-- Fixture: dataset with label masks over the mismatched pair of files. -/
def dsW5 : MemMapDataset := ⟨[0, 1], [[], []], some [10, 11], 1, 2, true, false, none⟩

/-- Fixture: one token file holding the little-endian 16-bit tokens 5, 5, 0, 0. -/
def fsW7 : FS := fun p => if p = 0 then [5, 0, 5, 0, 0, 0, 0, 0] else []

/-- Fixture: attention-mask-generating dataset (pad id 0) over that file. -/
def dsW7 : MemMapDataset := ⟨[0], [[]], none, 4, 2, true, true, some 0⟩

/-- Fixture: two one-file datasets with 1-byte tokens; the left one generates an
attention mask with pad id 1. -/
def fsW1 : FS := fun p => if p = 0 then [7, 8] else if p = 1 then [9, 9] else []

/-- Fixture: left operand of the concatenation counterexample. -/
def dsW1a : MemMapDataset := ⟨[0], [[]], none, 1, 1, true, true, some 1⟩

/-- Fixture: right operand of the concatenation counterexample. -/
def dsW1b : MemMapDataset := ⟨[1], [[]], none, 1, 1, true, false, none⟩

/-- Fixture: two plain one-file datasets with default flags, 1-byte elements and
chunk size 2, for the amended concatenation claim. -/
def dsW1c : MemMapDataset := ⟨[0], [[5]], none, 2, 1, true, false, none⟩

/-- Fixture: second plain operand over path 1. -/
def dsW1d : MemMapDataset := ⟨[1], [[6]], none, 2, 1, true, false, none⟩

/-- Fixture: heap whose records all hold `[3]`, with addresses below 6 allocated. -/
def hW9 : Heap := ⟨fun _ => [3], 6⟩

/-- Fixture: dataset over one 2-byte file, chunk 1, 2-byte elements (1 instance). -/
def dsW9 : MemMapDataset := ⟨[0], [[3]], none, 1, 2, true, false, none⟩

/-- Fixture: file system for the heap witness. -/
def fsW9 : FS := fun p => if p = 0 then [1, 1] else []

theorem offsetsLoopSt_none_eq (tc : Path → Nat) (ps : List Path) :
    ∀ (s : Nat) (acc : List (Nat × Nat)),
      offsetsLoopSt tc none ps s acc = (acc ++ rangesFrom s (ps.map tc), none) := by
  induction ps with
  | nil => intro s acc; simp [offsetsLoopSt, rangesFrom]
  | cons p ps ih =>
      intro s acc
      simp [offsetsLoopSt, rangesFrom, ih]

theorem offsetsLoopSt_ok (tc : Path → Nat) (mc : Option ((Path → Path) × (Path → Nat)))
    (ps : List Path) :
    ∀ (s : Nat) (acc res : List (Nat × Nat)),
      offsetsLoopSt tc mc ps s acc = (res, none) → res = acc ++ rangesFrom s (ps.map tc) := by
  induction ps with
  | nil =>
      intro s acc res h
      simp [offsetsLoopSt] at h
      simp [rangesFrom, h]
  | cons p ps ih =>
      intro s acc res h
      match mc with
      | none =>
          rw [offsetsLoopSt_none_eq] at h
          simp at h
          rw [← h]
          simp [rangesFrom]
      | some (p2m, mcLen) =>
          simp only [offsetsLoopSt] at h
          by_cases hc : tc p ≠ mcLen (p2m p)
          · simp [hc] at h
          · simp only [hc, if_false] at h
            have := ih (s + tc p) (acc ++ [(s, s + tc p)]) res h
            simp [this, rangesFrom]

theorem rangesFrom_length (s : Nat) (cs : List Nat) :
    (rangesFrom s cs).length = cs.length := by
  induction cs generalizing s with
  | nil => rfl
  | cons c cs ih => simp [rangesFrom, ih]

theorem rangesFrom_getD (cs : List Nat) :
    ∀ (s i : Nat), i < cs.length →
      (rangesFrom s cs).getD i (0, 0) = (s + (cs.take i).sum, s + (cs.take (i + 1)).sum) := by
  induction cs with
  | nil => intro s i h; simp at h
  | cons c cs ih =>
      intro s i h
      match i with
      | 0 => simp [rangesFrom]
      | i + 1 =>
          have hlt : i < cs.length := by simpa using h
          have := ih (s + c) i hlt
          simp only [rangesFrom, List.getD_cons_succ, this, List.take_succ_cons, List.sum_cons,
            Prod.mk.injEq]
          omega

theorem listLastE_rangesFrom (cs : List Nat) :
    ∀ (s : Nat), cs ≠ [] → listLastE (rangesFrom s cs) = .ok (s + cs.sum) := by
  induction cs with
  | nil => intro s h; exact absurd rfl h
  | cons c cs ih =>
      intro s _
      match cs with
      | [] => simp [rangesFrom, listLastE]
      | c2 :: cs2 =>
          have := ih (s + c) (by simp)
          simp only [rangesFrom] at this ⊢
          rw [listLastE, List.getLast?_cons_cons]
          rw [listLastE] at this
          rcases hlast : ((s + c, s + c + c2) :: rangesFrom (s + c + c2) cs2).getLast? with _ | pr
          · rw [hlast] at this; simp at this
          · rw [hlast] at this
            simp only [Except.ok.injEq] at this ⊢
            simp [this]
            omega

end OLMoData

namespace OLMoData

theorem buildOffsets_ok_eq (ds : MemMapDataset) (fs : FS) (l : List (Nat × Nat))
    (h : ds.buildOffsets fs = (l, none)) : l = rangesFrom 0 (tokenCounts ds fs) := by
  unfold MemMapDataset.buildOffsets at h
  rcases hlm : ds.label_mask_paths with _ | ms
  · rw [hlm] at h
    have := offsetsLoopSt_ok _ _ ds.memmap_paths 0 [] l h
    simpa [tokenCounts] using this
  · rw [hlm] at h
    by_cases hle : ds.memmap_paths.length ≤ ms.length
    · simp only [hle, if_true] at h
      have := offsetsLoopSt_ok _ _ ds.memmap_paths 0 [] l h
      simpa [tokenCounts] using this
    · simp [hle] at h

theorem offsetsE_ok_eq (ds : MemMapDataset) (fs : FS) (l : List (Nat × Nat))
    (h : ds.offsetsE fs = .ok l) : l = rangesFrom 0 (tokenCounts ds fs) := by
  unfold MemMapDataset.offsetsE MemMapDataset.offsetsSt at h
  rcases hb : ds.buildOffsets fs with ⟨l2, e⟩
  rw [hb] at h
  cases e with
  | none =>
      simp at h
      rw [← h]
      exact buildOffsets_ok_eq ds fs l2 hb
  | some e => simp at h

theorem buildOffsets_none_mask (ds : MemMapDataset) (fs : FS)
    (h : ds.label_mask_paths = none) :
    ds.buildOffsets fs = (rangesFrom 0 (tokenCounts ds fs), none) := by
  simp only [MemMapDataset.buildOffsets, h]
  rw [offsetsLoopSt_none_eq]
  simp [tokenCounts]

theorem offsetsE_none_mask (ds : MemMapDataset) (fs : FS)
    (h : ds.label_mask_paths = none) :
    ds.offsetsE fs = .ok (rangesFrom 0 (tokenCounts ds fs)) := by
  unfold MemMapDataset.offsetsE MemMapDataset.offsetsSt
  rw [buildOffsets_none_mask ds fs h]

theorem locate_isSome (cs : List Nat) : ∀ x, x < cs.sum → (locate cs x).isSome := by
  induction cs with
  | nil => intro x h; simp at h
  | cons c cs ih =>
      intro x h
      simp only [List.sum_cons] at h
      by_cases hx : x < c
      · simp [locate, hx]
      · have hr : x - c < cs.sum := by omega
        have := ih (x - c) hr
        rcases h2 : locate cs (x - c) with _ | pr
        · rw [h2] at this; simp at this
        · simp [locate, hx, h2]

theorem locate_eq_none (cs : List Nat) : ∀ x, cs.sum ≤ x → locate cs x = none := by
  induction cs with
  | nil => intro x _; rfl
  | cons c cs ih =>
      intro x h
      simp only [List.sum_cons] at h
      have hx : ¬ x < c := by omega
      simp [locate, hx, ih (x - c) (by omega)]

theorem locate_fst_lt (cs : List Nat) : ∀ x pr, locate cs x = some pr → pr.1 < cs.length := by
  induction cs with
  | nil => intro x pr h; simp [locate] at h
  | cons c cs ih =>
      intro x pr h
      by_cases hx : x < c
      · simp only [locate, if_pos hx, Option.some.injEq] at h
        rw [← h]
        simp
      · simp only [locate, if_neg hx, Option.map_eq_some'] at h
        obtain ⟨q, hq, hfq⟩ := h
        have := ih _ _ hq
        rw [← hfq]
        simp
        omega

theorem locate_append_left (cs cs2 : List Nat) : ∀ x, x < cs.sum →
    locate (cs ++ cs2) x = locate cs x := by
  induction cs with
  | nil => intro x h; simp at h
  | cons c cs ih =>
      intro x h
      simp only [List.sum_cons] at h
      by_cases hx : x < c
      · simp [locate, hx]
      · simp [locate, hx, ih (x - c) (by omega)]

theorem locate_append_right (cs cs2 : List Nat) : ∀ x, cs.sum ≤ x →
    locate (cs ++ cs2) x =
      (locate cs2 (x - cs.sum)).map (fun pr => (pr.1 + cs.length, pr.2)) := by
  induction cs with
  | nil =>
      intro x _
      simp only [List.nil_append, List.sum_nil, Nat.sub_zero, List.length_nil]
      rcases locate cs2 x with _ | pr <;> simp
  | cons c cs ih =>
      intro x h
      simp only [List.sum_cons] at h
      have hx : ¬ x < c := by omega
      simp only [List.cons_append, locate, if_neg hx, List.append_eq]
      rw [ih (x - c) (by omega)]
      have harg : x - c - cs.sum = x - (c + cs.sum) := by omega
      rw [harg]
      simp only [List.sum_cons, List.length_cons]
      rcases locate cs2 (x - (c + cs.sum)) with _ | pr
      · simp
      · simp [Prod.mk.injEq]
        omega

end OLMoData

namespace OLMoData

theorem findLoop_low (pos : Int) (cs : List Nat) :
    ∀ (S i : Nat) (acc : Option (Nat × Nat)), pos < (S : Int) →
      findLoop pos (rangesFrom S cs) i acc = acc := by
  induction cs with
  | nil => intro S i acc _; rfl
  | cons c cs ih =>
      intro S i acc h
      simp only [rangesFrom, findLoop]
      rw [if_neg (by omega)]
      exact ih (S + c) (i + 1) acc (by push_cast; omega)

theorem findLoop_ranges (pos : Int) (cs : List Nat) :
    ∀ (S i : Nat) (acc : Option (Nat × Nat)), (S : Int) ≤ pos →
      findLoop pos (rangesFrom S cs) i acc =
        (match locate cs (pos - (S : Int)).toNat with
         | some pr => some (pr.1 + i, pr.2)
         | none => acc) := by
  induction cs with
  | nil => intro S i acc _; simp [rangesFrom, findLoop, locate]
  | cons c cs ih =>
      intro S i acc h
      simp only [rangesFrom, findLoop]
      by_cases hc : pos < ((S + c : Nat) : Int)
      · rw [if_pos ⟨h, by push_cast; push_cast at hc; omega⟩]
        rw [findLoop_low pos cs (S + c) (i + 1) _ (by push_cast; push_cast at hc; omega)]
        have hxc : (pos - (S : Int)).toNat < c := by push_cast at hc; omega
        have hxc2 : pos.toNat - S < c := by push_cast at hc; omega
        simp [locate, hxc, hxc2]
      · rw [if_neg (by push_cast; push_cast at hc; omega)]
        rw [ih (S + c) (i + 1) acc (by push_cast; push_cast at hc; omega)]
        have hxc : ¬ (pos - (S : Int)).toNat < c := by push_cast at hc; omega
        simp only [locate, if_neg hxc]
        have harg : (pos - ((S + c : Nat) : Int)).toNat = (pos - (S : Int)).toNat - c := by
          push_cast; omega
        rw [harg]
        rcases locate cs ((pos - (S : Int)).toNat - c) with _ | pr
        · simp
        · simp [Prod.mk.injEq]
          omega

theorem resolveWith_nonneg_found (cs : List Nat) (index : Int) (pr : Nat × Nat)
    (h0 : 0 ≤ index) (hl : locate cs index.toNat = some pr) :
    resolveWith (rangesFrom 0 cs) index = .ok pr := by
  simp only [resolveWith, posIndexE, if_pos h0]
  rw [findLoop_ranges index cs 0 0 none (by omega)]
  have harg : (index - ((0 : Nat) : Int)).toNat = index.toNat := by omega
  rw [harg, hl]
  simp

theorem resolveWith_nonneg_oob (cs : List Nat) (index : Int)
    (h0 : 0 ≤ index) (hge : cs.sum ≤ index.toNat) (hne : cs ≠ []) :
    resolveWith (rangesFrom 0 cs) index = .error (.indexError (mkOOBMsg index cs.sum)) := by
  simp only [resolveWith, posIndexE, if_pos h0]
  rw [findLoop_ranges index cs 0 0 none (by omega)]
  have harg : (index - ((0 : Nat) : Int)).toNat = index.toNat := by omega
  rw [harg, locate_eq_none cs index.toNat hge, listLastE_rangesFrom cs 0 hne]
  simp

theorem resolveWith_neg_found (cs : List Nat) (index : Int) (pr : Nat × Nat)
    (hneg : index < 0) (hnn : 0 ≤ (cs.sum : Int) + index) (hne : cs ≠ [])
    (hl : locate cs ((cs.sum : Int) + index).toNat = some pr) :
    resolveWith (rangesFrom 0 cs) index = .ok pr := by
  have hif : ¬ (0 : Int) ≤ index := by omega
  simp only [resolveWith, posIndexE, if_neg hif, listLastE_rangesFrom cs 0 hne, Nat.zero_add]
  rw [findLoop_ranges ((cs.sum : Int) + index) cs 0 0 none (by omega)]
  have harg : ((cs.sum : Int) + index - ((0 : Nat) : Int)).toNat
      = ((cs.sum : Int) + index).toNat := by omega
  rw [harg, hl]
  simp

theorem resolveWith_neg_oob (cs : List Nat) (index : Int)
    (hneg : index < 0) (hlt : (cs.sum : Int) + index < 0) (hne : cs ≠ []) :
    resolveWith (rangesFrom 0 cs) index = .error (.indexError (mkOOBMsg index cs.sum)) := by
  have hif : ¬ (0 : Int) ≤ index := by omega
  simp only [resolveWith, posIndexE, if_neg hif, listLastE_rangesFrom cs 0 hne, Nat.zero_add]
  rw [findLoop_low ((cs.sum : Int) + index) cs 0 0 none (by omega)]

end OLMoData

namespace OLMoData

theorem listLastE_getLastD (l : List (Nat × Nat)) (h : l ≠ []) :
    listLastE l = .ok ((l.getLastD (0, 0)).2) := by
  unfold listLastE
  rcases hx : l.getLast? with _ | pr
  · exact absurd (List.getLast?_eq_none_iff.mp hx) h
  · rw [List.getLastD_eq_getLast?, hx]
    rfl

/-- C2: for every chunk size `C ≥ 1` and element width `w ≥ 1`, the instance count
contributed by a file of byte length `L = file_size fs path` is exactly
`L / (w * C)`, and the trailing bytes short of a complete chunk are dropped by the
floor division: the counted chunks cover at most `L` bytes, and one more chunk
would need more than `L` bytes. -/
theorem claim_C2 (ds : MemMapDataset) (fs : FS) (path : Path)
    (hC : 1 ≤ ds.chunk_size) (hw : 1 ≤ ds.itemsize) :
    (ds.get_file_length fs path ds.itemsize).2
        = file_size fs path / (ds.itemsize * ds.chunk_size)
    ∧ (ds.get_file_length fs path ds.itemsize).2 * (ds.itemsize * ds.chunk_size)
        ≤ file_size fs path
    ∧ file_size fs path
        < ((ds.get_file_length fs path ds.itemsize).2 + 1) * (ds.itemsize * ds.chunk_size) := by
  refine ⟨rfl, Nat.div_mul_le_self _ _, ?_⟩
  have hd : 0 < ds.itemsize * ds.chunk_size := Nat.mul_pos hw hC
  have h1 := Nat.div_add_mod (file_size fs path) (ds.itemsize * ds.chunk_size)
  have h2 := Nat.mod_lt (file_size fs path) hd
  have h3 : (file_size fs path / (ds.itemsize * ds.chunk_size) + 1)
        * (ds.itemsize * ds.chunk_size)
      = ds.itemsize * ds.chunk_size
          * (file_size fs path / (ds.itemsize * ds.chunk_size))
        + ds.itemsize * ds.chunk_size := by ring
  show file_size fs path
      < (file_size fs path / (ds.itemsize * ds.chunk_size) + 1) * (ds.itemsize * ds.chunk_size)
  linarith

/-- C2 witness: a 9-byte file with 2-byte elements and chunk size 2 counts
`9 / 4 = 2` instances, dropping one trailing byte. -/
theorem claim_C2_witness :
    ((⟨[0], [[]], none, 2, 2, true, false, none⟩ : MemMapDataset).get_file_length
        (fun _ => List.replicate 9 1) 0 2).2 = 9 / (2 * 2)
    ∧ ((⟨[0], [[]], none, 2, 2, true, false, none⟩ : MemMapDataset).get_file_length
        (fun _ => List.replicate 9 1) 0 2).2 * (2 * 2) ≤ 9
    ∧ (9 : Nat)
        < (((⟨[0], [[]], none, 2, 2, true, false, none⟩ : MemMapDataset).get_file_length
            (fun _ => List.replicate 9 1) 0 2).2 + 1) * (2 * 2) := by
  have := claim_C2 ⟨[0], [[]], none, 2, 2, true, false, none⟩
    (fun _ => List.replicate 9 1) 0 (by decide) (by decide)
  simpa [file_size] using this

/-- C3: whenever the offset index builds successfully, it has one range per
supplied path, in order; the first range starts at 0; each range's end equals the
next range's start; each range's width is exactly the owning file's instance
count; and the dataset length is the last range's end. -/
theorem claim_C3 (fs : FS) (ds : MemMapDataset) (l : List (Nat × Nat))
    (h : ds.offsetsE fs = .ok l) :
    l.length = ds.memmap_paths.length
    ∧ (l.getD 0 (0, 0)).1 = 0
    ∧ (∀ i, i + 1 < l.length → (l.getD i (0, 0)).2 = (l.getD (i + 1) (0, 0)).1)
    ∧ (∀ i, i < l.length →
        (l.getD i (0, 0)).2
          = (l.getD i (0, 0)).1
            + (ds.get_file_length fs (ds.memmap_paths.getD i 0) ds.itemsize).2)
    ∧ (l ≠ [] → ds.lenE fs = .ok ((l.getLastD (0, 0)).2)) := by
  have hlen5 : l ≠ [] → ds.lenE fs = .ok ((l.getLastD (0, 0)).2) := by
    intro hne
    unfold MemMapDataset.lenE
    rw [h]
    exact listLastE_getLastD l hne
  have hl := offsetsE_ok_eq ds fs l h
  subst hl
  have hcl : (tokenCounts ds fs).length = ds.memmap_paths.length := by
    simp [tokenCounts]
  refine ⟨by rw [rangesFrom_length, hcl], ?_, ?_, ?_, hlen5⟩
  · rcases hcs : tokenCounts ds fs with _ | ⟨c, cs⟩ <;> simp [rangesFrom]
  · intro i hi
    rw [rangesFrom_length] at hi
    have hi1 : i < (tokenCounts ds fs).length := by omega
    rw [rangesFrom_getD _ 0 i hi1, rangesFrom_getD _ 0 (i + 1) hi]
  · intro i hi
    rw [rangesFrom_length] at hi
    rw [rangesFrom_getD _ 0 i hi]
    have hip : i < ds.memmap_paths.length := by omega
    have hsum : ((tokenCounts ds fs).take (i + 1)).sum
        = ((tokenCounts ds fs).take i).sum + (tokenCounts ds fs).getD i 0 := by
      rw [List.sum_take_succ _ i hi, List.getD_eq_getElem _ _ hi]
    have hget : (tokenCounts ds fs).getD i 0
        = (ds.get_file_length fs (ds.memmap_paths.getD i 0) ds.itemsize).2 := by
      rw [List.getD_eq_getElem _ _ hi, List.getD_eq_getElem _ _ hip]
      simp [tokenCounts]
    rw [hsum, hget]
    simp

/-- C3 witness: three files with instance counts (3, 0, 5) yield the offset list
`[(0,3),(3,3),(3,8)]`, whose ranges are contiguous from 0, sized by the per-file
counts, and whose last end 8 is the dataset length. -/
theorem claim_C3_witness :
    dsW3.offsetsE fsW3 = .ok [(0, 3), (3, 3), (3, 8)]
    ∧ ([(0, 3), (3, 3), (3, 8)] : List (Nat × Nat)).length = dsW3.memmap_paths.length
    ∧ (([(0, 3), (3, 3), (3, 8)] : List (Nat × Nat)).getD 0 (0, 0)).1 = 0
    ∧ (([(0, 3), (3, 3), (3, 8)] : List (Nat × Nat)) ≠ [] →
        dsW3.lenE fsW3 = .ok (([(0, 3), (3, 3), (3, 8)] : List (Nat × Nat)).getLastD (0, 0)).2) := by
  have hoff : dsW3.offsetsE fsW3 = .ok [(0, 3), (3, 3), (3, 8)] := by decide
  have hc := claim_C3 fsW3 dsW3 [(0, 3), (3, 3), (3, 8)] hoff
  exact ⟨hoff, hc.1, hc.2.1, hc.2.2.2.2⟩

end OLMoData

namespace OLMoData

/-- C6 fails as stated: with `generate_attention_mask=True`, supplying
`pad_token_id=0` still fails construction, because the check at line 58 uses
Python truthiness (`not pad_token_id`), which 0 also triggers. -/
theorem claim_C6_counterexample :
    MemMapDataset.init [0] 1024 2 .noneArg true true (some 0) none
      = .error (.valueError "pad_token_id is required for generate_attention_mask") := by
  decide

/-- C6 amended: given otherwise valid arguments, construction with
`generate_attention_mask=True` succeeds iff `pad_token_id` is truthy, i.e.
present and nonzero; both `None` and `0` fail eagerly at construction time with
the pad-token error. -/
theorem claim_C6 (paths : List Path) (chunk_size itemsize : Nat) (metadata : MetaArg)
    (inc : Bool) (pad : Option Nat) (lm : Option (List Path))
    (hp : ¬ paths = [])
    (hl : labelTruthy lm = false ∨ labelLen lm = paths.length)
    (hm : metaLenOk metadata paths = true) :
    (isOkE (MemMapDataset.init paths chunk_size itemsize metadata inc true pad lm) = true
      ↔ padFalsy pad = false)
    ∧ (padFalsy pad = true →
        MemMapDataset.init paths chunk_size itemsize metadata inc true pad lm
          = .error (.valueError "pad_token_id is required for generate_attention_mask")) := by
  unfold MemMapDataset.init
  rw [if_neg hp]
  cases hpad : padFalsy pad with
  | true =>
      simp only [hpad, Bool.and_true, Bool.true_and, if_true]
      exact ⟨by simp [isOkE], fun _ => by simp⟩
  | false =>
      simp only [hpad, Bool.and_false, Bool.true_and, Bool.false_and]
      have hlab : (labelTruthy lm && (labelLen lm != paths.length)) = false := by
        rcases hl with hl | hl
        · simp [hl]
        · simp [hl]
      simp only [hlab, if_false, Bool.false_eq_true]
      constructor
      · cases metadata with
        | noneArg => simp [isOkE]
        | single m => simp [isOkE]
        | listArg l =>
            have hml : l.length = paths.length := by simpa [metaLenOk] using hm
            simp [isOkE, hml]
      · exact fun hcontra => hcontra.elim

/-- C6 witness: with one path and `generate_attention_mask=True`, `pad_token_id=1`
is accepted while the falsy check is bypassed. -/
theorem claim_C6_witness :
    isOkE (MemMapDataset.init [0] 1024 2 .noneArg true true (some 1) none) = true := by
  have := claim_C6 [0] 1024 2 .noneArg true (some 1) none
    (by decide) (Or.inl (by decide)) (by decide)
  exact this.1.mpr (by decide)

/-- C8 fails as stated: `__add__` performs no chunk-size or dtype comparison, so
operands with different chunk sizes and element widths concatenate without any
error, silently taking the left operand's parameters. -/
theorem claim_C8_counterexample :
    (⟨[0], [[]], none, 4, 2, true, false, none⟩ : MemMapDataset).chunk_size
      ≠ (⟨[1], [[]], none, 8, 4, true, false, none⟩ : MemMapDataset).chunk_size
    ∧ (⟨[0], [[]], none, 4, 2, true, false, none⟩ : MemMapDataset).itemsize
      ≠ (⟨[1], [[]], none, 8, 4, true, false, none⟩ : MemMapDataset).itemsize
    ∧ MemMapDataset.add ⟨[0], [[]], none, 4, 2, true, false, none⟩
        ⟨[1], [[]], none, 8, 4, true, false, none⟩
      = .ok ⟨[0, 1], [[], []], none, 4, 2, true, false, none⟩ := by
  decide

/-- C8 amended: concatenation always succeeds on well-formed operands and produces
a dataset with the left operand's chunk size and element dtype, regardless of the
right operand's; no mismatch check exists (the only check in `__add__` is the
`isinstance` test, vacuous in a typed setting). -/
theorem claim_C8 (a b : MemMapDataset)
    (ha : a.metadata.length = a.memmap_paths.length)
    (hb : b.metadata.length = b.memmap_paths.length)
    (hne : a.memmap_paths ≠ []) :
    a.add b = .ok ⟨a.memmap_paths ++ b.memmap_paths, a.metadata ++ b.metadata, none,
                   a.chunk_size, a.itemsize, true, false, none⟩ := by
  unfold MemMapDataset.add MemMapDataset.init
  simp [List.append_eq_nil, hne, labelTruthy, List.length_append, ha, hb, padFalsy]

/-- C8 witness: two concrete one-file datasets concatenate into the record with
the left operand's parameters. -/
theorem claim_C8_witness :
    MemMapDataset.add dsW1c dsW1d
      = .ok ⟨[0, 1], [[5], [6]], none, 2, 1, true, false, none⟩ :=
  claim_C8 dsW1c dsW1d (by decide) (by decide) (by decide)

end OLMoData

namespace OLMoData

theorem offsetsE_of_st (ds : MemMapDataset) (fs : FS) (res : Except PyError (List (Nat × Nat)))
    (st2 : DsState) (h : ds.offsetsSt fs none = (res, st2)) : ds.offsetsE fs = res := by
  unfold MemMapDataset.offsetsE
  rw [h]

theorem getItem_ok_assemble (ds : MemMapDataset) (fs : FS) (index : Int) (inst : Instance)
    (h : ds.getItem fs index = .ok inst) :
    ∃ offs r, ds.offsetsE fs = .ok offs ∧ resolveWith offs index = .ok r
      ∧ assembleAt fs ds r.1 r.2 = .ok inst := by
  unfold MemMapDataset.getItem MemMapDataset.getItemSt at h
  rcases ho : ds.offsetsSt fs none with ⟨res, st2⟩
  rw [ho] at h
  cases res with
  | error e => simp at h
  | ok offs =>
      simp only [] at h
      unfold getItemWith at h
      rcases hr : resolveWith offs index with e | r
      · rw [hr] at h; simp at h
      · rw [hr] at h
        exact ⟨offs, r, offsetsE_of_st ds fs _ _ ho, hr, h⟩

theorem assembleAt_ok_fields (ds : MemMapDataset) (fs : FS) (mi li : Nat) (inst : Instance)
    (h : assembleAt fs ds mi li = .ok inst) :
    read_chunk_tokens fs ds.itemsize ds.chunk_size (ds.memmap_paths.getD mi 0) li
        = .ok inst.input_ids
    ∧ readLabelMask fs ds mi li = .ok inst.label_mask
    ∧ inst.metadata
        = (if ds.include_instance_metadata then some (ds.metadata.getD mi []) else none)
    ∧ (ds.generate_attention_mask = false → inst.attention_mask = none)
    ∧ (∀ pid, ds.generate_attention_mask = true → ds.pad_token_id = some pid →
        inst.attention_mask
          = some (inst.input_ids.map (fun t => if t = pid then 0 else 1))) := by
  unfold assembleAt at h
  rcases ht : read_chunk_tokens fs ds.itemsize ds.chunk_size (ds.memmap_paths.getD mi 0) li
    with e | ids
  · rw [ht] at h; simp at h
  · rw [ht] at h
    rcases hlm : readLabelMask fs ds mi li with e | lmv
    · rw [hlm] at h; simp at h
    · rw [hlm] at h
      cases hg : ds.generate_attention_mask with
      | false =>
          rw [hg] at h
          simp only [Bool.false_eq_true, if_false, Except.ok.injEq] at h
          subst h
          refine ⟨rfl, rfl, rfl, fun _ => rfl, ?_⟩
          intro pid hgt _
          exact absurd hgt (by decide)
      | true =>
          rw [hg] at h
          rcases hp2 : ds.pad_token_id with _ | pid
          · rw [hp2] at h; simp at h
          · rw [hp2] at h
            simp only [eq_self_iff_true, if_true, Except.ok.injEq] at h
            subst h
            refine ⟨rfl, rfl, rfl, ?_, ?_⟩
            · intro hgf; exact absurd hgf (by decide)
            · intro pid2 _ hps
              injection hps with hpp
              subst hpp
              rfl

theorem add_ok_fields (a b c : MemMapDataset) (h : a.add b = .ok c) :
    c = ⟨a.memmap_paths ++ b.memmap_paths, a.metadata ++ b.metadata, none,
         a.chunk_size, a.itemsize, true, false, none⟩ := by
  simp only [MemMapDataset.add, MemMapDataset.init] at h
  split_ifs at h with h1 h2 h3 h4
  all_goals simp_all

/-- C10: a concatenated dataset `A + B` is always built with the constructor
defaults for everything but paths, chunk size, dtype and metadata: it has no
label-mask paths, includes instance metadata, and does not generate attention
masks — so none of its instances ever carries a `label_mask` or an
`attention_mask` entry, however A and B were configured. -/
theorem claim_C10 (a b c : MemMapDataset) (h : a.add b = .ok c) :
    c.label_mask_paths = none ∧ c.include_instance_metadata = true
    ∧ c.generate_attention_mask = false
    ∧ ∀ (fs : FS) (index : Int) (inst : Instance), c.getItem fs index = .ok inst →
        inst.label_mask = none ∧ inst.attention_mask = none := by
  have hc := add_ok_fields a b c h
  subst hc
  refine ⟨rfl, rfl, rfl, ?_⟩
  intro fs index inst hg
  obtain ⟨offs, r, _, _, ha⟩ := getItem_ok_assemble _ fs index inst hg
  have hf := assembleAt_ok_fields _ fs r.1 r.2 inst ha
  have hlm : inst.label_mask = none := by
    have h2 := hf.2.1
    unfold readLabelMask at h2
    simp only [Except.ok.injEq] at h2
    exact h2.symm
  exact ⟨hlm, hf.2.2.2.1 rfl⟩

/-- C10 witness: concatenating two concrete datasets yields the default-flag
record, and its instances carry no mask entries. -/
theorem claim_C10_witness :
    MemMapDataset.add dsW1c dsW1d
      = .ok ⟨[0, 1], [[5], [6]], none, 2, 1, true, false, none⟩
    ∧ (⟨[0, 1], [[5], [6]], none, 2, 1, true, false, none⟩
        : MemMapDataset).label_mask_paths = none := by
  have h : MemMapDataset.add dsW1c dsW1d
      = .ok ⟨[0, 1], [[5], [6]], none, 2, 1, true, false, none⟩ := by decide
  exact ⟨h, (claim_C10 dsW1c dsW1d _ h).1⟩

/-- C7: whenever attention-mask generation is on with a configured pad id, every
returned instance carries an attention mask, computed from its tokens: the same
length as `input_ids`, with entry 0 (false) exactly at positions whose token
equals the pad id and 1 (true) elsewhere. -/
theorem claim_C7 (ds : MemMapDataset) (fs : FS) (pid : Nat) (index : Int) (inst : Instance)
    (hg : ds.generate_attention_mask = true) (hp : ds.pad_token_id = some pid)
    (h : ds.getItem fs index = .ok inst) :
    inst.attention_mask = some (inst.input_ids.map (fun t => if t = pid then 0 else 1))
    ∧ (inst.input_ids.map (fun t => if t = pid then 0 else 1)).length = inst.input_ids.length
    ∧ (∀ j, j < inst.input_ids.length →
        (((inst.input_ids.map (fun t => if t = pid then 0 else 1)).getD j 2 = 0)
          ↔ inst.input_ids.getD j 0 = pid)) := by
  obtain ⟨offs, r, _, _, ha⟩ := getItem_ok_assemble ds fs index inst h
  have hf := assembleAt_ok_fields ds fs r.1 r.2 inst ha
  refine ⟨hf.2.2.2.2 pid hg hp, by simp, ?_⟩
  intro j hj
  rw [List.getD_eq_getElem _ _ (by simpa using hj), List.getElem_map,
      List.getD_eq_getElem _ _ hj]
  by_cases hpj : inst.input_ids[j] = pid <;> simp [hpj]

/-- C7 witness: the file holding tokens (5, 5, 0, 0) read with pad id 0 yields the
attention mask (1, 1, 0, 0). -/
theorem claim_C7_witness :
    dsW7.getItem fsW7 0 = .ok ⟨[5, 5, 0, 0], none, some [], some [1, 1, 0, 0]⟩
    ∧ (⟨[5, 5, 0, 0], none, some [], some [1, 1, 0, 0]⟩ : Instance).attention_mask
      = some (([5, 5, 0, 0] : List Nat).map (fun t => if t = 0 then 0 else 1)) := by
  have h : dsW7.getItem fsW7 0 = .ok ⟨[5, 5, 0, 0], none, some [], some [1, 1, 0, 0]⟩ := by
    decide
  exact ⟨h, (claim_C7 dsW7 fsW7 0 0 _ rfl rfl h).1⟩

end OLMoData

namespace OLMoData

theorem lenE_ok_inv (ds : MemMapDataset) (fs : FS) (n : Nat) (hn : ds.lenE fs = .ok n) :
    ds.offsetsE fs = .ok (rangesFrom 0 (tokenCounts ds fs))
    ∧ tokenCounts ds fs ≠ [] ∧ (tokenCounts ds fs).sum = n := by
  unfold MemMapDataset.lenE at hn
  rcases ho : ds.offsetsE fs with e | l
  · rw [ho] at hn; simp at hn
  · rw [ho] at hn
    change listLastE l = Except.ok n at hn
    have hl := offsetsE_ok_eq ds fs l ho
    have hne : tokenCounts ds fs ≠ [] := by
      intro hemp
      rw [hl, hemp] at hn
      simp [rangesFrom, listLastE] at hn
    have hsum : (tokenCounts ds fs).sum = n := by
      rw [hl] at hn
      rw [listLastE_rangesFrom _ 0 hne] at hn
      injection hn with h2
      omega
    exact ⟨by rw [hl], hne, hsum⟩

theorem getItem_eq_getItemWith (ds : MemMapDataset) (fs : FS) (offs : List (Nat × Nat))
    (ho : ds.offsetsE fs = .ok offs) (index : Int) :
    ds.getItem fs index = getItemWith fs ds offs index := by
  unfold MemMapDataset.getItem MemMapDataset.getItemSt
  unfold MemMapDataset.offsetsE at ho
  rcases hst : ds.offsetsSt fs none with ⟨res, st2⟩
  rw [hst] at ho
  simp at ho
  subst ho
  rfl

theorem getItemWith_error (fs : FS) (ds : MemMapDataset) (offs : List (Nat × Nat))
    (index : Int) (e : PyError) (h : resolveWith offs index = .error e) :
    getItemWith fs ds offs index = .error e := by
  unfold getItemWith
  rw [h]

theorem getItemWith_ok (fs : FS) (ds : MemMapDataset) (offs : List (Nat × Nat))
    (index : Int) (r : Nat × Nat) (h : resolveWith offs index = .ok r) :
    getItemWith fs ds offs index = assembleAt fs ds r.1 r.2 := by
  unfold getItemWith
  rw [h]

/-- C4: for a dataset of length `n ≥ 1`, `get(-1)` returns exactly what
`get(n-1)` returns (the negative index resolves to `n + index` before the bounds
scan), while `get(n)` and `get(-n-1)` both fail with an `IndexError` whose
message names the attempted index and the dataset length `n`. -/
theorem claim_C4 (ds : MemMapDataset) (fs : FS) (n : Nat)
    (hn : ds.lenE fs = .ok n) (h1 : 1 ≤ n) :
    ds.getItem fs (-1) = ds.getItem fs ((n : Int) - 1)
    ∧ ds.getItem fs (n : Int) = .error (.indexError (mkOOBMsg (n : Int) n))
    ∧ ds.getItem fs (-(n : Int) - 1)
        = .error (.indexError (mkOOBMsg (-(n : Int) - 1) n)) := by
  obtain ⟨ho, hne, hsum⟩ := lenE_ok_inv ds fs n hn
  have hga := getItem_eq_getItemWith ds fs _ ho
  refine ⟨?_, ?_, ?_⟩
  · rw [hga (-1), hga ((n : Int) - 1)]
    rcases hlo : locate (tokenCounts ds fs) (((tokenCounts ds fs).sum : Int) + (-1)).toNat
      with _ | pr
    · have hs := locate_isSome (tokenCounts ds fs)
        ((((tokenCounts ds fs).sum : Int) + (-1)).toNat) (by omega)
      rw [hlo] at hs; simp at hs
    · have hr1 := resolveWith_neg_found (tokenCounts ds fs) (-1) pr
        (by omega) (by omega) hne hlo
      have hlo2 : locate (tokenCounts ds fs) ((n : Int) - 1).toNat = some pr := by
        have he : ((n : Int) - 1).toNat
            = (((tokenCounts ds fs).sum : Int) + (-1)).toNat := by omega
        rw [he]; exact hlo
      have hr2 := resolveWith_nonneg_found (tokenCounts ds fs) ((n : Int) - 1) pr
        (by omega) hlo2
      rw [getItemWith_ok fs ds _ _ pr hr1, getItemWith_ok fs ds _ _ pr hr2]
  · rw [hga (n : Int)]
    have hr := resolveWith_nonneg_oob (tokenCounts ds fs) (n : Int) (by omega) (by omega) hne
    rw [getItemWith_error fs ds _ _ _ hr, hsum]
  · rw [hga (-(n : Int) - 1)]
    have hr := resolveWith_neg_oob (tokenCounts ds fs) (-(n : Int) - 1)
      (by omega) (by omega) hne
    rw [getItemWith_error fs ds _ _ _ hr, hsum]

/-- C4 witness: the (3,0,5) dataset of length 8 satisfies `get(-1) = get(7)` and
`get(8)` fails with the message naming 8 and 8. -/
theorem claim_C4_witness :
    dsW3.getItem fsW3 (-1) = dsW3.getItem fsW3 (((8 : Nat) : Int) - 1)
    ∧ dsW3.getItem fsW3 ((8 : Nat) : Int)
        = .error (.indexError (mkOOBMsg ((8 : Nat) : Int) 8)) := by
  have h := claim_C4 dsW3 fsW3 8 (by decide) (by decide)
  exact ⟨h.1, h.2.1⟩

end OLMoData

namespace OLMoData

theorem findLoop_some (pos : Int) (l : List (Nat × Nat)) :
    ∀ (i : Nat) (acc : Option (Nat × Nat)) (r : Nat × Nat),
      findLoop pos l i acc = some r → acc = some r ∨ r.1 < i + l.length := by
  induction l with
  | nil => intro i acc r h; exact Or.inl h
  | cons pr0 rest ih =>
      intro i acc r h
      rcases pr0 with ⟨s, e⟩
      simp only [findLoop] at h
      rcases ih (i + 1) _ r h with h2 | h2
      · by_cases hc : (s : Int) ≤ pos ∧ pos < (e : Int)
        · rw [if_pos hc] at h2
          injection h2 with h3
          right
          rw [← h3]
          simp
        · rw [if_neg hc] at h2
          exact Or.inl h2
      · right
        simp only [List.length_cons]
        omega

theorem resolveWith_ok_fst_lt (offs : List (Nat × Nat)) (index : Int) (r : Nat × Nat)
    (h : resolveWith offs index = .ok r) : r.1 < offs.length := by
  unfold resolveWith at h
  rcases hp : posIndexE offs index with e | pos
  · rw [hp] at h; simp at h
  · rw [hp] at h
    simp only [] at h
    rcases hf : findLoop pos offs 0 none with _ | r2
    · rw [hf] at h
      rcases hll : listLastE offs with e | n <;> rw [hll] at h <;> simp at h
    · rw [hf] at h
      simp at h
      subst h
      rcases findLoop_some pos offs 0 none r2 hf with h2 | h2
      · cases h2
      · simpa using h2

theorem heapDeepcopy_self (h : Heap) (a : Nat) :
    (heapDeepcopy h a).2.data (heapDeepcopy h a).1 = h.data a := by
  simp [heapDeepcopy, Heap.alloc]

theorem heapDeepcopy_other (h : Heap) (a b : Nat) (hb : b ≠ h.next) :
    (heapDeepcopy h a).2.data b = h.data b := by
  simp [heapDeepcopy, Heap.alloc, hb]

theorem writeSeq_data_ne (vs : List Meta) :
    ∀ (h : Heap) (a b : Nat), b ≠ a → (writeSeq h a vs).data b = h.data b := by
  induction vs with
  | nil => intro h a b _; rfl
  | cons v vs ih =>
      intro h a b hb
      have hstep : writeSeq h a (v :: vs) = writeSeq (h.write a v) a vs := rfl
      rw [hstep, ih (h.write a v) a b hb]
      simp [Heap.write, hb]

theorem getItemMetaH_ok_inv (ds : MemMapDataset) (fs : FS) (addrs : List Nat) (h : Heap)
    (index : Int) (r : Nat × Heap) (hg : ds.getItemMetaH fs addrs h index = .ok r) :
    ∃ offs rr, ds.offsetsE fs = .ok offs ∧ resolveWith offs index = .ok rr
      ∧ r = heapDeepcopy h (addrs.getD rr.1 0) := by
  unfold MemMapDataset.getItemMetaH at hg
  rcases ho : ds.offsetsE fs with e | offs
  · rw [ho] at hg; simp at hg
  · rw [ho] at hg
    simp only [] at hg
    rcases hr : resolveWith offs index with e | rr
    · rw [hr] at hg; simp at hg
    · rw [hr] at hg
      simp only [Except.ok.injEq] at hg
      exact ⟨offs, rr, rfl, hr, hg.symm⟩

/-- C9: the metadata record returned by a get is a fresh deep copy: however often
the caller mutates the returned record, the dataset's stored metadata records are
unchanged, and a subsequent get, at any index, returns metadata with exactly the
contents an unmutated fetch would have returned. -/
theorem claim_C9 (ds : MemMapDataset) (fs : FS) (addrs : List Nat) (h : Heap)
    (index : Int) (r : Nat × Heap)
    (hwf : ∀ a ∈ addrs, a < h.next)
    (hlen : addrs.length = ds.memmap_paths.length)
    (hg : ds.getItemMetaH fs addrs h index = .ok r) :
    (∀ (vs : List Meta) (a : Nat), a ∈ addrs → (writeSeq r.2 r.1 vs).data a = h.data a)
    ∧ (∀ (vs : List Meta) (j : Int) (r2 r3 : Nat × Heap),
        ds.getItemMetaH fs addrs (writeSeq r.2 r.1 vs) j = .ok r2 →
        ds.getItemMetaH fs addrs h j = .ok r3 →
        r2.2.data r2.1 = r3.2.data r3.1) := by
  obtain ⟨offs, rr, ho, hrr, hre⟩ := getItemMetaH_ok_inv ds fs addrs h index r hg
  have hr1 : r.1 = h.next := by rw [hre]; rfl
  have hr2data : ∀ b, b ≠ h.next → r.2.data b = h.data b := by
    intro b hb
    rw [hre]
    exact heapDeepcopy_other h _ b hb
  have hmain : ∀ (vs : List Meta) (a : Nat), a ∈ addrs →
      (writeSeq r.2 r.1 vs).data a = h.data a := by
    intro vs a ha
    have hane : a ≠ r.1 := by rw [hr1]; exact Nat.ne_of_lt (hwf a ha)
    rw [writeSeq_data_ne vs r.2 r.1 a hane]
    exact hr2data a (by rw [← hr1]; exact hane)
  refine ⟨hmain, ?_⟩
  intro vs j r2 r3 hg2 hg3
  obtain ⟨offs2, rr2, ho2, hrr2, hre2⟩ := getItemMetaH_ok_inv ds fs addrs _ j r2 hg2
  obtain ⟨offs3, rr3, ho3, hrr3, hre3⟩ := getItemMetaH_ok_inv ds fs addrs h j r3 hg3
  rw [ho2] at ho3
  injection ho3 with hoeq
  subst hoeq
  rw [hrr2] at hrr3
  injection hrr3 with hrreq
  subst hrreq
  have hlt : rr2.1 < addrs.length := by
    have hb := resolveWith_ok_fst_lt offs2 j rr2 hrr2
    have hlo := offsetsE_ok_eq ds fs offs2 ho2
    rw [hlo, rangesFrom_length] at hb
    have hcl : (tokenCounts ds fs).length = ds.memmap_paths.length := by simp [tokenCounts]
    omega
  have ha0 : addrs.getD rr2.1 0 ∈ addrs := by
    rw [List.getD_eq_getElem _ _ hlt]
    exact List.getElem_mem hlt
  rw [hre2, hre3, heapDeepcopy_self, heapDeepcopy_self]
  exact hmain vs _ ha0

/-- C9 witness: one concrete fetch hands out the fresh copy of the record at
address 5, and overwriting the copy leaves the stored record unchanged. -/
theorem claim_C9_witness :
    dsW9.getItemMetaH fsW9 [5] hW9 0 = .ok (heapDeepcopy hW9 5)
    ∧ (writeSeq (heapDeepcopy hW9 5).2 (heapDeepcopy hW9 5).1 [[9]]).data 5
      = hW9.data 5 := by
  have hg : dsW9.getItemMetaH fsW9 [5] hW9 0 = .ok (heapDeepcopy hW9 5) := rfl
  refine ⟨hg, ?_⟩
  exact (claim_C9 dsW9 fsW9 [5] hW9 0 _ (by decide) (by decide) hg).1 [[9]] 5 (by simp)

/-- C5 (code bug): the failing build does raise the consistency error naming both
the mask path (11) and the token path (1), but it leaves the partially filled
offset list `[(0, 1)]` stored in `_mmap_offsets`; the very same dataset state then
serves `get(0)` successfully from the truncated index, and the partial index
stays published. -/
theorem claim_C5 :
    dsW5.offsetsSt fsW5 none
      = (.error (.valueError (mkMaskMismatchMsg 11 1)), some [(0, 1)])
    ∧ isOkE (dsW5.getItemSt fsW5 (some [(0, 1)]) 0).1 = true
    ∧ (dsW5.getItemSt fsW5 (some [(0, 1)]) 0).2 = some [(0, 1)] := by
  exact ⟨by decide, by decide, by decide⟩

end OLMoData

namespace OLMoData

theorem tokenCounts_length (ds : MemMapDataset) (fs : FS) :
    (tokenCounts ds fs).length = ds.memmap_paths.length := by
  simp [tokenCounts]

theorem assembleAt_flags_default (fs : FS) (ds : MemMapDataset) (mi li : Nat)
    (hL : ds.label_mask_paths = none) (hI : ds.include_instance_metadata = true)
    (hG : ds.generate_attention_mask = false) :
    assembleAt fs ds mi li
      = (match read_chunk_tokens fs ds.itemsize ds.chunk_size
            (ds.memmap_paths.getD mi 0) li with
         | .ok ids => .ok ⟨ids, none, some (ds.metadata.getD mi []), none⟩
         | .error e => .error e) := by
  unfold assembleAt readLabelMask
  rw [hL, hG]
  rcases ht : read_chunk_tokens fs ds.itemsize ds.chunk_size (ds.memmap_paths.getD mi 0) li
    with e | ids
  · rfl
  · simp [hI]

theorem assembleAt_concat_left (fs : FS) (a b : MemMapDataset) (mi li : Nat)
    (haL : a.label_mask_paths = none) (haI : a.include_instance_metadata = true)
    (haG : a.generate_attention_mask = false)
    (haW : a.metadata.length = a.memmap_paths.length)
    (hmi : mi < a.memmap_paths.length) :
    assembleAt fs ⟨a.memmap_paths ++ b.memmap_paths, a.metadata ++ b.metadata, none,
                   a.chunk_size, a.itemsize, true, false, none⟩ mi li
      = assembleAt fs a mi li := by
  rw [assembleAt_flags_default fs _ mi li rfl rfl rfl,
      assembleAt_flags_default fs a mi li haL haI haG]
  dsimp only
  rw [List.getD_append _ _ _ _ hmi, List.getD_append _ _ _ _ (by omega)]

theorem assembleAt_concat_right (fs : FS) (a b : MemMapDataset) (j li : Nat)
    (hbL : b.label_mask_paths = none) (hbI : b.include_instance_metadata = true)
    (hbG : b.generate_attention_mask = false)
    (haW : a.metadata.length = a.memmap_paths.length)
    (hchunk : a.chunk_size = b.chunk_size) (hwidth : a.itemsize = b.itemsize) :
    assembleAt fs ⟨a.memmap_paths ++ b.memmap_paths, a.metadata ++ b.metadata, none,
                   a.chunk_size, a.itemsize, true, false, none⟩
        (j + a.memmap_paths.length) li
      = assembleAt fs b j li := by
  rw [assembleAt_flags_default fs _ _ li rfl rfl rfl,
      assembleAt_flags_default fs b j li hbL hbI hbG]
  dsimp only
  rw [List.getD_append_right _ _ _ _ (by omega), List.getD_append_right _ _ _ _ (by omega)]
  rw [show j + a.memmap_paths.length - a.memmap_paths.length = j from by omega]
  rw [show j + a.memmap_paths.length - a.metadata.length = j from by omega]
  rw [hchunk, hwidth]

/-- C1 fails as stated: with the same chunk size and dtype but the left operand
generating attention masks, `(A + B).get(0)` differs from `A.get(0)` — the
concatenated view drops A's attention-mask configuration, so the instance lacks
the `attention_mask` entry A's own instance carries. -/
theorem claim_C1_counterexample :
    dsW1a.chunk_size = dsW1b.chunk_size
    ∧ dsW1a.itemsize = dsW1b.itemsize
    ∧ MemMapDataset.add dsW1a dsW1b
        = .ok ⟨[0, 1], [[], []], none, 1, 1, true, false, none⟩
    ∧ dsW1a.lenE fsW1 = .ok 2
    ∧ (0 : Nat) < 2
    ∧ (⟨[0, 1], [[], []], none, 1, 1, true, false, none⟩ : MemMapDataset).getItem fsW1 0
        ≠ dsW1a.getItem fsW1 0 := by
  decide

/-- C1 amended: for operands with the same chunk size and element dtype that are
both configured with the default instance assembly (no label masks, metadata
included, no attention mask), the concatenated dataset agrees with A on indices
below `len(A)` and with B, shifted by `len(A)`, on the next `len(B)` indices. -/
theorem claim_C1 (fs : FS) (a b ab : MemMapDataset) (nA nB : Nat)
    (hab : a.add b = .ok ab)
    (hchunk : a.chunk_size = b.chunk_size) (hwidth : a.itemsize = b.itemsize)
    (haL : a.label_mask_paths = none) (haI : a.include_instance_metadata = true)
    (haG : a.generate_attention_mask = false)
    (hbL : b.label_mask_paths = none) (hbI : b.include_instance_metadata = true)
    (hbG : b.generate_attention_mask = false)
    (haW : a.metadata.length = a.memmap_paths.length)
    (hbW : b.metadata.length = b.memmap_paths.length)
    (hna : a.lenE fs = .ok nA) (hnb : b.lenE fs = .ok nB) :
    (∀ i : Nat, i < nA → ab.getItem fs (i : Int) = a.getItem fs (i : Int))
    ∧ (∀ i : Nat, nA ≤ i → i < nA + nB →
        ab.getItem fs (i : Int) = b.getItem fs ((i - nA : Nat) : Int)) := by
  obtain ⟨hoA, hneA, hsumA⟩ := lenE_ok_inv a fs nA hna
  obtain ⟨hoB, hneB, hsumB⟩ := lenE_ok_inv b fs nB hnb
  have habf := add_ok_fields a b ab hab
  subst habf
  have hlenA := tokenCounts_length a fs
  have hcsAB : tokenCounts ⟨a.memmap_paths ++ b.memmap_paths, a.metadata ++ b.metadata,
        none, a.chunk_size, a.itemsize, true, false, none⟩ fs
      = tokenCounts a fs ++ tokenCounts b fs := by
    simp only [tokenCounts, MemMapDataset.get_file_length, List.map_append]
    rw [hchunk, hwidth]
  have hoAB : MemMapDataset.offsetsE ⟨a.memmap_paths ++ b.memmap_paths,
        a.metadata ++ b.metadata, none, a.chunk_size, a.itemsize, true, false, none⟩ fs
      = .ok (rangesFrom 0 (tokenCounts a fs ++ tokenCounts b fs)) := by
    rw [offsetsE_none_mask _ fs rfl, hcsAB]
  have hgAB := getItem_eq_getItemWith _ fs _ hoAB
  have hgA := getItem_eq_getItemWith a fs _ hoA
  have hgB := getItem_eq_getItemWith b fs _ hoB
  constructor
  · intro i hi
    rcases hloc : locate (tokenCounts a fs) i with _ | pr
    · have hs := locate_isSome (tokenCounts a fs) i (by omega)
      rw [hloc] at hs
      simp at hs
    · have hlocA : locate (tokenCounts a fs) ((i : Int)).toNat = some pr := by
        rw [Int.toNat_natCast]; exact hloc
      have hlocAB : locate (tokenCounts a fs ++ tokenCounts b fs) ((i : Int)).toNat
          = some pr := by
        rw [Int.toNat_natCast, locate_append_left _ _ _ (by omega)]
        exact hloc
      have hrAB := resolveWith_nonneg_found _ ((i : Nat) : Int) pr (by omega) hlocAB
      have hrA := resolveWith_nonneg_found _ ((i : Nat) : Int) pr (by omega) hlocA
      rw [hgAB, hgA, getItemWith_ok fs _ _ _ pr hrAB, getItemWith_ok fs a _ _ pr hrA]
      have hmi : pr.1 < a.memmap_paths.length := by
        have := locate_fst_lt _ _ _ hloc
        omega
      exact assembleAt_concat_left fs a b pr.1 pr.2 haL haI haG haW hmi
  · intro i hge hlt
    rcases hloc : locate (tokenCounts b fs) (i - nA) with _ | q
    · have hs := locate_isSome (tokenCounts b fs) (i - nA) (by omega)
      rw [hloc] at hs
      simp at hs
    · have hlocB : locate (tokenCounts b fs) (((i - nA : Nat) : Int)).toNat = some q := by
        rw [Int.toNat_natCast]; exact hloc
      have hlocAB : locate (tokenCounts a fs ++ tokenCounts b fs) ((i : Int)).toNat
          = some (q.1 + (tokenCounts a fs).length, q.2) := by
        rw [Int.toNat_natCast, locate_append_right _ _ _ (by omega)]
        rw [show i - (tokenCounts a fs).sum = i - nA from by omega]
        rw [hloc]
        rfl
      have hrAB := resolveWith_nonneg_found _ ((i : Nat) : Int)
        (q.1 + (tokenCounts a fs).length, q.2) (by omega) hlocAB
      have hrB := resolveWith_nonneg_found _ (((i - nA : Nat) : Int)) q (by omega) hlocB
      rw [hgAB, hgB, getItemWith_ok fs _ _ _ _ hrAB, getItemWith_ok fs b _ _ q hrB]
      dsimp only
      rw [hlenA]
      exact assembleAt_concat_right fs a b q.1 q.2 hbL hbI hbG haW hchunk hwidth

/-- C1 witness: for two concrete default-flag datasets of one instance each,
`(A + B).get(0) = A.get(0)` and `(A + B).get(1) = B.get(0)`. -/
theorem claim_C1_witness :
    MemMapDataset.add dsW1c dsW1d
      = .ok ⟨[0, 1], [[5], [6]], none, 2, 1, true, false, none⟩
    ∧ (⟨[0, 1], [[5], [6]], none, 2, 1, true, false, none⟩ : MemMapDataset).getItem fsW1
        ((0 : Nat) : Int)
      = dsW1c.getItem fsW1 ((0 : Nat) : Int)
    ∧ (⟨[0, 1], [[5], [6]], none, 2, 1, true, false, none⟩ : MemMapDataset).getItem fsW1
        ((1 : Nat) : Int)
      = dsW1d.getItem fsW1 (((1 : Nat) - 1 : Nat) : Int) := by
  have hab : MemMapDataset.add dsW1c dsW1d
      = .ok ⟨[0, 1], [[5], [6]], none, 2, 1, true, false, none⟩ := by decide
  have h := claim_C1 fsW1 dsW1c dsW1d _ 1 1 hab rfl rfl rfl rfl rfl rfl rfl rfl
    (by decide) (by decide) (by decide) (by decide)
  exact ⟨hab, h.1 0 (by decide), h.2 1 (by decide) (by decide)⟩

end OLMoData
